import Mathlib

/-!
Shallow embedding of the GitVille stargazer-city generator
(`fetch_stargazers.py`) and proofs about its slot allocator
(`generate_city_slots`), its household sync (`generate_houses`, `main`)
and its relayout routine (`recalculate_layout`).

Python integers become `Int`/`Nat`; the house coordinates, computed in
Python as floats of integral value (`MAIN_AVENUE_WIDTH / 2 = 3.0` and
integer multiples added to it), are embedded as `Int`.  Python lists are
`List`; the `road_tiles` set is a `List` used only through membership, so
duplicates are irrelevant.  The source's early return for `limit <= 1`
produces a 2-tuple `(slots, facing_dir)` where every other path (and every
caller) uses a 3-tuple `(slots, facing_dir, roads)`; the road component is
therefore embedded as an `Option`, `none` on the early-return path.
-/

namespace GitVille

/-! ### Attribute deriver (`string_to_color`, `string_to_pseudo_random`) -/

/-- Modelled from the spec: the source calls the external library primitive
`hashlib.md5(s).hexdigest()`, which is not part of this repository.  The
spec (§4.1) requires only a deterministic, process-independent, fixed-width
hex digest ("the exact hash algorithm is an implementation choice"), so the
digest is modelled as a deterministic 32-hex-digit value derived from the
string's characters.  Nothing proved below depends on the digest values,
only on the digest being a function. -/
def md5_hexdigits (s : String) : List Nat :=
  let h : Nat := s.data.foldl (fun acc c => (acc * 65599 + c.toNat) % (2 ^ 128)) 5381
  (List.range 32).map (fun i => h / 16 ^ i % 16)

/-- Hex digit rendering used by the digest (`hexdigest` yields lowercase hex). -/
def hexChar (n : Nat) : Char :=
  if n < 10 then Char.ofNat (48 + n) else Char.ofNat (87 + n)

/-- `string_to_color`: `"#"` followed by the first 6 hex digits of the digest. -/
def string_to_color (s : String) : String :=
  "#" ++ String.mk (((md5_hexdigits s).take 6).map hexChar)

/-- `string_to_pseudo_random`: the first 5 hex digit values of the digest,
each reduced `% 4`. -/
def string_to_pseudo_random (s : String) : List Nat :=
  ((md5_hexdigits s).take 5).map (· % 4)

/-! ### Slot allocator (`generate_city_slots`) — constants -/

def HOUSE_GAP : Int := 2
def STREET_GAP : Int := 2
def MAIN_AVENUE_WIDTH : Int := 6
def CLUSTER_ROWS : Nat := 4
def CLUSTER_COLS : Nat := 4
def HOUSES_PER_BLOCK : Nat := CLUSTER_ROWS * CLUSTER_COLS
def BLOCK_WIDTH : Int := ((CLUSTER_COLS : Int) - 1) * HOUSE_GAP
def BLOCK_HEIGHT : Int := ((CLUSTER_ROWS : Int) - 1) * HOUSE_GAP
def BLOCK_STRIDE_X : Int := BLOCK_WIDTH + STREET_GAP
def BLOCK_STRIDE_Y : Int := BLOCK_HEIGHT + STREET_GAP

/-- Quadrant sign multipliers, in source order: NE, NW, SW, SE. -/
def quadrants : List (Int × Int) := [(1, -1), (-1, -1), (-1, 1), (1, 1)]

/-- Python `range(a, b+1)` over integers (empty when `b < a`). -/
def intRange (a b : Int) : List Int :=
  (List.range (b + 1 - a).toNat).map (fun k => a + (k : Int))

/-- Road grid-line coordinate: `0 if idx == 0 else 2 + idx * 8`. -/
def get_r_coord (idx : Nat) : Int :=
  if idx = 0 then 0 else 2 + (idx : Int) * 8

/-- Mutable state of the generation loops: the slot list, the facing list,
the count `houses_placed`, and the accumulated road tiles. -/
structure GenState where
  slots : List (Int × Int)
  facing : List String
  placed : Nat
  roads : List (Int × Int)
deriving Repr, DecidableEq

/-- Inner cell loop `for i in range(HOUSES_PER_BLOCK)`, with its
`if houses_placed >= limit_remaining: break` at the top of the body.
The source appends the facing entry twice per house: the `if house_x > 0`
block appears two times at the same indentation inside the loop. -/
def fillCells (lr : Nat) (bsx bsy qx qy : Int) : List Nat → GenState → GenState
  | [], st => st
  | i :: is, st =>
    if lr ≤ st.placed then st
    else
      let ix : Nat := i % CLUSTER_COLS
      let iy : Nat := i / CLUSTER_COLS
      let house_x := bsx + (ix : Int) * HOUSE_GAP * qx
      let house_y := bsy + (iy : Int) * HOUSE_GAP * qy
      let f := if 0 < house_x then "left" else "right"
      fillCells lr bsx bsy qx qy is
        { st with
          slots := st.slots ++ [(house_x, house_y)]
          facing := st.facing ++ [f, f]
          placed := st.placed + 1 }

/-- Road generation for one block: the four bounding grid-lines of block
`(bx, by)` in quadrant `(qx, qy)`, rasterized tile by tile. -/
def addBlockRoads (bx b_y : Nat) (qx qy : Int) (st : GenState) : GenState :=
  let rx_in := get_r_coord bx * qx
  let rx_out := get_r_coord (bx + 1) * qx
  let ry_in := get_r_coord b_y * qy
  let ry_out := get_r_coord (b_y + 1) * qy
  let sx := min rx_in rx_out
  let ex := max rx_in rx_out
  let sy := min ry_in ry_out
  let ey := max ry_in ry_out
  let horiz := (intRange sx ex).flatMap (fun x => [(x, ry_in), (x, ry_out)])
  let vert := (intRange sy ey).flatMap (fun y => [(rx_in, y), (rx_out, y)])
  { st with roads := st.roads ++ horiz ++ vert }

/-- Quadrant loop `for q_idx in range(4)` for one abstract block position,
with its `if houses_placed >= limit: break` at the top of the body.
(The `break` only skips the remaining quadrants of the current abstract
position; the outer loop continues.) -/
def processQuadrants (limit lr : Nat) (bx b_y : Nat) :
    List (Int × Int) → GenState → GenState
  | [], st => st
  | (qx, qy) :: rest, st =>
    if limit ≤ st.placed then st
    else
      let base_x := (MAIN_AVENUE_WIDTH / 2) * qx
      let base_y := (MAIN_AVENUE_WIDTH / 2) * qy
      let block_start_x := base_x + (bx : Int) * BLOCK_STRIDE_X * qx
      let block_start_y := base_y + (b_y : Int) * BLOCK_STRIDE_Y * qy
      let st1 := fillCells lr block_start_x block_start_y qx qy
        (List.range HOUSES_PER_BLOCK) st
      let st2 := addBlockRoads bx b_y qx qy st1
      processQuadrants limit lr bx b_y rest st2

/-- Outer loop `for bx, by in abstract_block_positions`. -/
def processAbstract (limit lr : Nat) : List (Nat × Nat) → GenState → GenState
  | [], st => st
  | (bx, b_y) :: rest, st =>
    processAbstract limit lr rest (processQuadrants limit lr bx b_y quadrants st)

/-- The `while len(abstract_block_positions) * 4 < total_blocks + 4` loop,
building diagonal layers `(x, layer - x)`.  The loop adds at least one
position per iteration, so fuel `tb + 4` always suffices (proved below). -/
def buildAbstract (tb : Nat) : Nat → Nat → List (Nat × Nat) → List (Nat × Nat)
  | 0, _, acc => acc
  | fuel + 1, layer, acc =>
    if acc.length * 4 < tb + 4 then
      buildAbstract tb fuel (layer + 1)
        (acc ++ (List.range (layer + 1)).map (fun x => (x, layer - x)))
    else acc

/-- The ten tiles removed by the central post-processing:
`(0, i)` and `(i, 0)` for `i in range(-2, 3)`. -/
def crossTiles : List (Int × Int) :=
  (intRange (-2) 2).flatMap (fun i => [(0, i), (i, 0)])

/-- The ring road added around the central house: the square of Chebyshev
radius 2 around the origin. -/
def ringTiles : List (Int × Int) :=
  (intRange (-2) 2).flatMap (fun x => [(x, -2), (x, 2)]) ++
    (intRange (-2) 2).flatMap (fun y => [(-2, y), (2, y)])

/-- The whole generation loop nest for `limit ≥ 2`, before post-processing:
initial state has the anchor slot `(0,0)` facing `"down"` already placed. -/
def cityState (n : Nat) : GenState :=
  processAbstract n (n - 1)
    (buildAbstract ((n + (HOUSES_PER_BLOCK - 1)) / HOUSES_PER_BLOCK)
      ((n + (HOUSES_PER_BLOCK - 1)) / HOUSES_PER_BLOCK + 4) 0 [])
    ⟨[(0, 0)], ["down"], 0, []⟩

/-- `generate_city_slots(limit)`.  For `limit <= 1` the source returns the
2-tuple `(slots, facing_dir)` — no road component at all (embedded as
`none`); otherwise it returns `(slots, facing_dir, list(road_tiles))` after
removing the central cross tiles and adding the ring road. -/
def generate_city_slots (limit : Int) :
    List (Int × Int) × List String × Option (List (Int × Int)) :=
  if limit ≤ 1 then ([(0, 0)], ["down"], none)
  else
    let st := cityState limit.toNat
    let roads :=
      if st.slots.isEmpty then st.roads
      else st.roads.filter (fun t => decide (t ∉ crossTiles)) ++ ringTiles
    (st.slots, st.facing, some roads)

/-! ### Allocator lemmas -/

/-- Every road tile produced by block rasterization lies on a grid line:
one of its coordinates is `0` or has absolute value at least `10`. -/
def RoadP (t : Int × Int) : Prop :=
  t.1 = 0 ∨ 10 ≤ t.1.natAbs ∨ t.2 = 0 ∨ 10 ≤ t.2.natAbs

theorem get_r_coord_shape (k : Nat) (q : Int) :
    get_r_coord k * q = 0 ∨ 10 ≤ (get_r_coord k * q).natAbs := by
  rcases Nat.eq_zero_or_pos k with hk | hk
  · subst hk; simp [get_r_coord]
  · rcases eq_or_ne q 0 with hq | hq
    · subst hq; simp
    · right
      rw [Int.natAbs_mul]
      have hco : get_r_coord k = 2 + (k : Int) * 8 := by
        simp [get_r_coord, Nat.pos_iff_ne_zero.mp hk]
      have h1 : 10 ≤ (get_r_coord k).natAbs := by
        rw [hco]; omega
      have h2 : 1 ≤ q.natAbs := Int.natAbs_pos.mpr hq
      calc 10 = 10 * 1 := by ring
        _ ≤ (get_r_coord k).natAbs * q.natAbs := Nat.mul_le_mul h1 h2

theorem fillCells_placed (lr : Nat) (bsx bsy qx qy : Int) (is : List Nat) :
    ∀ st : GenState, (fillCells lr bsx bsy qx qy is st).placed
      = max st.placed (min lr (st.placed + is.length)) := by
  induction is with
  | nil => intro st; simp [fillCells]
  | cons i is ih =>
    intro st
    by_cases h : lr ≤ st.placed
    · simp only [fillCells, if_pos h, List.length_cons]
      omega
    · simp only [fillCells, if_neg h, List.length_cons]
      rw [ih]
      simp only []
      omega

theorem fillCells_slots_len (lr : Nat) (bsx bsy qx qy : Int) (is : List Nat) :
    ∀ st : GenState, (fillCells lr bsx bsy qx qy is st).slots.length + st.placed
      = st.slots.length + (fillCells lr bsx bsy qx qy is st).placed := by
  induction is with
  | nil => intro st; simp [fillCells]
  | cons i is ih =>
    intro st
    by_cases h : lr ≤ st.placed
    · simp [fillCells, if_pos h]
    · simp only [fillCells, if_neg h]
      have := ih { st with
        slots := st.slots ++ [(bsx + ((i % CLUSTER_COLS : Nat) : Int) * HOUSE_GAP * qx,
                               bsy + ((i / CLUSTER_COLS : Nat) : Int) * HOUSE_GAP * qy)]
        facing := st.facing ++
          [if 0 < bsx + ((i % CLUSTER_COLS : Nat) : Int) * HOUSE_GAP * qx then "left" else "right",
           if 0 < bsx + ((i % CLUSTER_COLS : Nat) : Int) * HOUSE_GAP * qx then "left" else "right"]
        placed := st.placed + 1 }
      simp only [List.length_append, List.length_cons, List.length_nil] at this ⊢
      omega

theorem fillCells_facing_len (lr : Nat) (bsx bsy qx qy : Int) (is : List Nat) :
    ∀ st : GenState, (fillCells lr bsx bsy qx qy is st).facing.length + 2 * st.placed
      = st.facing.length + 2 * (fillCells lr bsx bsy qx qy is st).placed := by
  induction is with
  | nil => intro st; simp [fillCells]
  | cons i is ih =>
    intro st
    by_cases h : lr ≤ st.placed
    · simp [fillCells, if_pos h]
    · simp only [fillCells, if_neg h]
      have := ih { st with
        slots := st.slots ++ [(bsx + ((i % CLUSTER_COLS : Nat) : Int) * HOUSE_GAP * qx,
                               bsy + ((i / CLUSTER_COLS : Nat) : Int) * HOUSE_GAP * qy)]
        facing := st.facing ++
          [if 0 < bsx + ((i % CLUSTER_COLS : Nat) : Int) * HOUSE_GAP * qx then "left" else "right",
           if 0 < bsx + ((i % CLUSTER_COLS : Nat) : Int) * HOUSE_GAP * qx then "left" else "right"]
        placed := st.placed + 1 }
      simp only [List.length_append, List.length_cons, List.length_nil] at this ⊢
      omega

theorem fillCells_slots_append (lr : Nat) (bsx bsy qx qy : Int) (is : List Nat) :
    ∀ st : GenState, ∃ l, (fillCells lr bsx bsy qx qy is st).slots = st.slots ++ l := by
  induction is with
  | nil => intro st; exact ⟨[], by simp [fillCells]⟩
  | cons i is ih =>
    intro st
    by_cases h : lr ≤ st.placed
    · exact ⟨[], by simp [fillCells, if_pos h]⟩
    · simp only [fillCells, if_neg h]
      obtain ⟨l, hl⟩ := ih { st with
        slots := st.slots ++ [(bsx + ((i % CLUSTER_COLS : Nat) : Int) * HOUSE_GAP * qx,
                               bsy + ((i / CLUSTER_COLS : Nat) : Int) * HOUSE_GAP * qy)]
        facing := st.facing ++
          [if 0 < bsx + ((i % CLUSTER_COLS : Nat) : Int) * HOUSE_GAP * qx then "left" else "right",
           if 0 < bsx + ((i % CLUSTER_COLS : Nat) : Int) * HOUSE_GAP * qx then "left" else "right"]
        placed := st.placed + 1 }
      refine ⟨[(bsx + ((i % CLUSTER_COLS : Nat) : Int) * HOUSE_GAP * qx,
               bsy + ((i / CLUSTER_COLS : Nat) : Int) * HOUSE_GAP * qy)] ++ l, ?_⟩
      rw [hl]
      simp [List.append_assoc]

theorem fillCells_facing_append (lr : Nat) (bsx bsy qx qy : Int) (is : List Nat) :
    ∀ st : GenState, ∃ l, (fillCells lr bsx bsy qx qy is st).facing = st.facing ++ l := by
  induction is with
  | nil => intro st; exact ⟨[], by simp [fillCells]⟩
  | cons i is ih =>
    intro st
    by_cases h : lr ≤ st.placed
    · exact ⟨[], by simp [fillCells, if_pos h]⟩
    · simp only [fillCells, if_neg h]
      obtain ⟨l, hl⟩ := ih { st with
        slots := st.slots ++ [(bsx + ((i % CLUSTER_COLS : Nat) : Int) * HOUSE_GAP * qx,
                               bsy + ((i / CLUSTER_COLS : Nat) : Int) * HOUSE_GAP * qy)]
        facing := st.facing ++
          [if 0 < bsx + ((i % CLUSTER_COLS : Nat) : Int) * HOUSE_GAP * qx then "left" else "right",
           if 0 < bsx + ((i % CLUSTER_COLS : Nat) : Int) * HOUSE_GAP * qx then "left" else "right"]
        placed := st.placed + 1 }
      refine ⟨[if 0 < bsx + ((i % CLUSTER_COLS : Nat) : Int) * HOUSE_GAP * qx then "left" else "right",
               if 0 < bsx + ((i % CLUSTER_COLS : Nat) : Int) * HOUSE_GAP * qx then "left" else "right"] ++ l, ?_⟩
      rw [hl]
      simp [List.append_assoc]

theorem fillCells_roads (lr : Nat) (bsx bsy qx qy : Int) (is : List Nat) :
    ∀ st : GenState, (fillCells lr bsx bsy qx qy is st).roads = st.roads := by
  induction is with
  | nil => intro st; simp [fillCells]
  | cons i is ih =>
    intro st
    by_cases h : lr ≤ st.placed
    · simp [fillCells, if_pos h]
    · simp only [fillCells, if_neg h]
      rw [ih]

theorem addBlockRoads_slots (bx b_y : Nat) (qx qy : Int) (st : GenState) :
    (addBlockRoads bx b_y qx qy st).slots = st.slots := rfl

theorem addBlockRoads_facing (bx b_y : Nat) (qx qy : Int) (st : GenState) :
    (addBlockRoads bx b_y qx qy st).facing = st.facing := rfl

theorem addBlockRoads_placed (bx b_y : Nat) (qx qy : Int) (st : GenState) :
    (addBlockRoads bx b_y qx qy st).placed = st.placed := rfl

theorem addBlockRoads_roads_mem (bx b_y : Nat) (qx qy : Int) (st : GenState)
    (t : Int × Int) (ht : t ∈ (addBlockRoads bx b_y qx qy st).roads) :
    t ∈ st.roads ∨ RoadP t := by
  simp only [addBlockRoads, List.append_assoc, List.mem_append, List.mem_flatMap,
    List.mem_cons, List.not_mem_nil, or_false] at ht
  rcases ht with h | ⟨x, _, hxt | hxt⟩ | ⟨y, _, hyt | hyt⟩
  · exact Or.inl h
  · right
    subst hxt
    rcases get_r_coord_shape b_y qy with h0 | h10
    · exact Or.inr (Or.inr (Or.inl h0))
    · exact Or.inr (Or.inr (Or.inr h10))
  · right
    subst hxt
    rcases get_r_coord_shape (b_y + 1) qy with h0 | h10
    · exact Or.inr (Or.inr (Or.inl h0))
    · exact Or.inr (Or.inr (Or.inr h10))
  · right
    subst hyt
    rcases get_r_coord_shape bx qx with h0 | h10
    · exact Or.inl h0
    · exact Or.inr (Or.inl h10)
  · right
    subst hyt
    rcases get_r_coord_shape (bx + 1) qx with h0 | h10
    · exact Or.inl h0
    · exact Or.inr (Or.inl h10)

theorem processQuadrants_placed (limit lr bx b_y : Nat) (qs : List (Int × Int)) :
    ∀ st : GenState, st.placed ≤ lr → lr < limit →
      (processQuadrants limit lr bx b_y qs st).placed
        = min lr (st.placed + HOUSES_PER_BLOCK * qs.length) := by
  induction qs with
  | nil =>
    intro st h1 _
    simp only [processQuadrants, List.length_nil, Nat.mul_zero, Nat.add_zero]
    omega
  | cons q rest ih =>
    obtain ⟨qx, qy⟩ := q
    intro st h1 h2
    have hbreak : ¬ limit ≤ st.placed := by omega
    simp only [processQuadrants, if_neg hbreak]
    rw [ih _ ?_ h2]
    · rw [addBlockRoads_placed, fillCells_placed]
      simp only [List.length_range, List.length_cons]
      have h16 : HOUSES_PER_BLOCK = 16 := rfl
      rw [h16]
      omega
    · rw [addBlockRoads_placed, fillCells_placed]
      omega

theorem processQuadrants_slots_len (limit lr bx b_y : Nat) (qs : List (Int × Int)) :
    ∀ st : GenState,
      (processQuadrants limit lr bx b_y qs st).slots.length + st.placed
        = st.slots.length + (processQuadrants limit lr bx b_y qs st).placed := by
  induction qs with
  | nil => intro st; simp [processQuadrants]
  | cons q rest ih =>
    obtain ⟨qx, qy⟩ := q
    intro st
    by_cases hbreak : limit ≤ st.placed
    · simp [processQuadrants, if_pos hbreak]
    · simp only [processQuadrants, if_neg hbreak]
      have hstep := fillCells_slots_len lr
        ((MAIN_AVENUE_WIDTH / 2) * qx + (bx : Int) * BLOCK_STRIDE_X * qx)
        ((MAIN_AVENUE_WIDTH / 2) * qy + (b_y : Int) * BLOCK_STRIDE_Y * qy)
        qx qy (List.range HOUSES_PER_BLOCK) st
      have hrec := ih (addBlockRoads bx b_y qx qy (fillCells lr
        ((MAIN_AVENUE_WIDTH / 2) * qx + (bx : Int) * BLOCK_STRIDE_X * qx)
        ((MAIN_AVENUE_WIDTH / 2) * qy + (b_y : Int) * BLOCK_STRIDE_Y * qy)
        qx qy (List.range HOUSES_PER_BLOCK) st))
      rw [addBlockRoads_slots, addBlockRoads_placed] at hrec
      omega

theorem processQuadrants_facing_len (limit lr bx b_y : Nat) (qs : List (Int × Int)) :
    ∀ st : GenState,
      (processQuadrants limit lr bx b_y qs st).facing.length + 2 * st.placed
        = st.facing.length + 2 * (processQuadrants limit lr bx b_y qs st).placed := by
  induction qs with
  | nil => intro st; simp [processQuadrants]
  | cons q rest ih =>
    obtain ⟨qx, qy⟩ := q
    intro st
    by_cases hbreak : limit ≤ st.placed
    · simp [processQuadrants, if_pos hbreak]
    · simp only [processQuadrants, if_neg hbreak]
      have hstep := fillCells_facing_len lr
        ((MAIN_AVENUE_WIDTH / 2) * qx + (bx : Int) * BLOCK_STRIDE_X * qx)
        ((MAIN_AVENUE_WIDTH / 2) * qy + (b_y : Int) * BLOCK_STRIDE_Y * qy)
        qx qy (List.range HOUSES_PER_BLOCK) st
      have hrec := ih (addBlockRoads bx b_y qx qy (fillCells lr
        ((MAIN_AVENUE_WIDTH / 2) * qx + (bx : Int) * BLOCK_STRIDE_X * qx)
        ((MAIN_AVENUE_WIDTH / 2) * qy + (b_y : Int) * BLOCK_STRIDE_Y * qy)
        qx qy (List.range HOUSES_PER_BLOCK) st))
      rw [addBlockRoads_facing, addBlockRoads_placed] at hrec
      omega

theorem processQuadrants_slots_append (limit lr bx b_y : Nat) (qs : List (Int × Int)) :
    ∀ st : GenState, ∃ l, (processQuadrants limit lr bx b_y qs st).slots = st.slots ++ l := by
  induction qs with
  | nil => intro st; exact ⟨[], by simp [processQuadrants]⟩
  | cons q rest ih =>
    obtain ⟨qx, qy⟩ := q
    intro st
    by_cases hbreak : limit ≤ st.placed
    · exact ⟨[], by simp [processQuadrants, if_pos hbreak]⟩
    · simp only [processQuadrants, if_neg hbreak]
      obtain ⟨l1, hl1⟩ := fillCells_slots_append lr
        ((MAIN_AVENUE_WIDTH / 2) * qx + (bx : Int) * BLOCK_STRIDE_X * qx)
        ((MAIN_AVENUE_WIDTH / 2) * qy + (b_y : Int) * BLOCK_STRIDE_Y * qy)
        qx qy (List.range HOUSES_PER_BLOCK) st
      obtain ⟨l2, hl2⟩ := ih (addBlockRoads bx b_y qx qy (fillCells lr
        ((MAIN_AVENUE_WIDTH / 2) * qx + (bx : Int) * BLOCK_STRIDE_X * qx)
        ((MAIN_AVENUE_WIDTH / 2) * qy + (b_y : Int) * BLOCK_STRIDE_Y * qy)
        qx qy (List.range HOUSES_PER_BLOCK) st))
      rw [addBlockRoads_slots, hl1] at hl2
      exact ⟨l1 ++ l2, by rw [hl2, List.append_assoc]⟩

theorem processQuadrants_facing_append (limit lr bx b_y : Nat) (qs : List (Int × Int)) :
    ∀ st : GenState, ∃ l, (processQuadrants limit lr bx b_y qs st).facing = st.facing ++ l := by
  induction qs with
  | nil => intro st; exact ⟨[], by simp [processQuadrants]⟩
  | cons q rest ih =>
    obtain ⟨qx, qy⟩ := q
    intro st
    by_cases hbreak : limit ≤ st.placed
    · exact ⟨[], by simp [processQuadrants, if_pos hbreak]⟩
    · simp only [processQuadrants, if_neg hbreak]
      obtain ⟨l1, hl1⟩ := fillCells_facing_append lr
        ((MAIN_AVENUE_WIDTH / 2) * qx + (bx : Int) * BLOCK_STRIDE_X * qx)
        ((MAIN_AVENUE_WIDTH / 2) * qy + (b_y : Int) * BLOCK_STRIDE_Y * qy)
        qx qy (List.range HOUSES_PER_BLOCK) st
      obtain ⟨l2, hl2⟩ := ih (addBlockRoads bx b_y qx qy (fillCells lr
        ((MAIN_AVENUE_WIDTH / 2) * qx + (bx : Int) * BLOCK_STRIDE_X * qx)
        ((MAIN_AVENUE_WIDTH / 2) * qy + (b_y : Int) * BLOCK_STRIDE_Y * qy)
        qx qy (List.range HOUSES_PER_BLOCK) st))
      rw [addBlockRoads_facing, hl1] at hl2
      exact ⟨l1 ++ l2, by rw [hl2, List.append_assoc]⟩

theorem processQuadrants_roads_mem (limit lr bx b_y : Nat) (qs : List (Int × Int)) :
    ∀ (st : GenState) (t : Int × Int),
      t ∈ (processQuadrants limit lr bx b_y qs st).roads → t ∈ st.roads ∨ RoadP t := by
  induction qs with
  | nil => intro st t ht; simpa [processQuadrants] using Or.inl ht
  | cons q rest ih =>
    obtain ⟨qx, qy⟩ := q
    intro st t ht
    by_cases hbreak : limit ≤ st.placed
    · simp only [processQuadrants, if_pos hbreak] at ht
      exact Or.inl ht
    · simp only [processQuadrants, if_neg hbreak] at ht
      rcases ih _ t ht with h | h
      · rcases addBlockRoads_roads_mem _ _ _ _ _ _ h with h' | h'
        · rw [fillCells_roads] at h'
          exact Or.inl h'
        · exact Or.inr h'
      · exact Or.inr h

theorem processAbstract_placed (limit lr : Nat) (ps : List (Nat × Nat)) :
    ∀ st : GenState, st.placed ≤ lr → lr < limit →
      (processAbstract limit lr ps st).placed
        = min lr (st.placed + (HOUSES_PER_BLOCK * 4) * ps.length) := by
  induction ps with
  | nil =>
    intro st h1 _
    simp only [processAbstract, List.length_nil, Nat.mul_zero, Nat.add_zero]
    omega
  | cons p rest ih =>
    obtain ⟨bx, b_y⟩ := p
    intro st h1 h2
    simp only [processAbstract]
    have hq := processQuadrants_placed limit lr bx b_y quadrants st h1 h2
    have hlen : (quadrants : List (Int × Int)).length = 4 := rfl
    rw [hlen] at hq
    rw [ih _ (by omega) h2, hq]
    simp only [List.length_cons]
    have h16 : HOUSES_PER_BLOCK = 16 := rfl
    rw [h16] at hq ⊢
    omega

theorem processAbstract_slots_len (limit lr : Nat) (ps : List (Nat × Nat)) :
    ∀ st : GenState,
      (processAbstract limit lr ps st).slots.length + st.placed
        = st.slots.length + (processAbstract limit lr ps st).placed := by
  induction ps with
  | nil => intro st; simp [processAbstract]
  | cons p rest ih =>
    obtain ⟨bx, b_y⟩ := p
    intro st
    simp only [processAbstract]
    have hq := processQuadrants_slots_len limit lr bx b_y quadrants st
    have hrec := ih (processQuadrants limit lr bx b_y quadrants st)
    omega

theorem processAbstract_facing_len (limit lr : Nat) (ps : List (Nat × Nat)) :
    ∀ st : GenState,
      (processAbstract limit lr ps st).facing.length + 2 * st.placed
        = st.facing.length + 2 * (processAbstract limit lr ps st).placed := by
  induction ps with
  | nil => intro st; simp [processAbstract]
  | cons p rest ih =>
    obtain ⟨bx, b_y⟩ := p
    intro st
    simp only [processAbstract]
    have hq := processQuadrants_facing_len limit lr bx b_y quadrants st
    have hrec := ih (processQuadrants limit lr bx b_y quadrants st)
    omega

theorem processAbstract_slots_append (limit lr : Nat) (ps : List (Nat × Nat)) :
    ∀ st : GenState, ∃ l, (processAbstract limit lr ps st).slots = st.slots ++ l := by
  induction ps with
  | nil => intro st; exact ⟨[], by simp [processAbstract]⟩
  | cons p rest ih =>
    obtain ⟨bx, b_y⟩ := p
    intro st
    simp only [processAbstract]
    obtain ⟨l1, hl1⟩ := processQuadrants_slots_append limit lr bx b_y quadrants st
    obtain ⟨l2, hl2⟩ := ih (processQuadrants limit lr bx b_y quadrants st)
    rw [hl1] at hl2
    exact ⟨l1 ++ l2, by rw [hl2, List.append_assoc]⟩

theorem processAbstract_facing_append (limit lr : Nat) (ps : List (Nat × Nat)) :
    ∀ st : GenState, ∃ l, (processAbstract limit lr ps st).facing = st.facing ++ l := by
  induction ps with
  | nil => intro st; exact ⟨[], by simp [processAbstract]⟩
  | cons p rest ih =>
    obtain ⟨bx, b_y⟩ := p
    intro st
    simp only [processAbstract]
    obtain ⟨l1, hl1⟩ := processQuadrants_facing_append limit lr bx b_y quadrants st
    obtain ⟨l2, hl2⟩ := ih (processQuadrants limit lr bx b_y quadrants st)
    rw [hl1] at hl2
    exact ⟨l1 ++ l2, by rw [hl2, List.append_assoc]⟩

theorem processAbstract_roads_mem (limit lr : Nat) (ps : List (Nat × Nat)) :
    ∀ (st : GenState) (t : Int × Int),
      t ∈ (processAbstract limit lr ps st).roads → t ∈ st.roads ∨ RoadP t := by
  induction ps with
  | nil => intro st t ht; simpa [processAbstract] using Or.inl ht
  | cons p rest ih =>
    obtain ⟨bx, b_y⟩ := p
    intro st t ht
    simp only [processAbstract] at ht
    rcases ih _ t ht with h | h
    · exact processQuadrants_roads_mem limit lr bx b_y quadrants st t h
    · exact Or.inr h

theorem buildAbstract_len (tb : Nat) :
    ∀ (fuel layer : Nat) (acc : List (Nat × Nat)),
      tb + 4 ≤ acc.length * 4 + fuel * 4 →
      tb + 4 ≤ (buildAbstract tb fuel layer acc).length * 4 := by
  intro fuel
  induction fuel with
  | zero =>
    intro layer acc h
    simp only [buildAbstract]
    omega
  | succ fuel ih =>
    intro layer acc h
    by_cases hc : acc.length * 4 < tb + 4
    · simp only [buildAbstract, if_pos hc]
      apply ih
      simp only [List.length_append, List.length_map, List.length_range]
      omega
    · simp only [buildAbstract, if_neg hc]
      omega

/-- For `n ≥ 1` the loop nest places exactly `n - 1` houses
(`limit_remaining = n - 1`; the abstract position list always holds enough
blocks since `4 * len ≥ total_blocks + 4`). -/
theorem cityState_placed (n : Nat) (hn : 1 ≤ n) : (cityState n).placed = n - 1 := by
  unfold cityState
  have habs := buildAbstract_len ((n + (HOUSES_PER_BLOCK - 1)) / HOUSES_PER_BLOCK)
    ((n + (HOUSES_PER_BLOCK - 1)) / HOUSES_PER_BLOCK + 4) 0 [] (by simp)
  rw [processAbstract_placed n (n - 1) _ _ (by simp) (by omega)]
  have h16 : HOUSES_PER_BLOCK = 16 := rfl
  rw [h16] at habs ⊢
  simp only [GenState.placed] at *
  omega

theorem cityState_slots_len (n : Nat) (hn : 1 ≤ n) : (cityState n).slots.length = n := by
  have hp := cityState_placed n hn
  have hl := processAbstract_slots_len n (n - 1)
    (buildAbstract ((n + (HOUSES_PER_BLOCK - 1)) / HOUSES_PER_BLOCK)
      ((n + (HOUSES_PER_BLOCK - 1)) / HOUSES_PER_BLOCK + 4) 0 [])
    ⟨[(0, 0)], ["down"], 0, []⟩
  unfold cityState at hp ⊢
  simp only [List.length_cons, List.length_nil] at hl
  omega

theorem cityState_facing_len (n : Nat) (hn : 1 ≤ n) :
    (cityState n).facing.length = 2 * n - 1 := by
  have hp := cityState_placed n hn
  have hl := processAbstract_facing_len n (n - 1)
    (buildAbstract ((n + (HOUSES_PER_BLOCK - 1)) / HOUSES_PER_BLOCK)
      ((n + (HOUSES_PER_BLOCK - 1)) / HOUSES_PER_BLOCK + 4) 0 [])
    ⟨[(0, 0)], ["down"], 0, []⟩
  unfold cityState at hp ⊢
  simp only [List.length_cons, List.length_nil] at hl
  omega

theorem cityState_slots_head (n : Nat) : (cityState n).slots.head? = some (0, 0) := by
  unfold cityState
  obtain ⟨l, hl⟩ := processAbstract_slots_append n (n - 1)
    (buildAbstract ((n + (HOUSES_PER_BLOCK - 1)) / HOUSES_PER_BLOCK)
      ((n + (HOUSES_PER_BLOCK - 1)) / HOUSES_PER_BLOCK + 4) 0 [])
    ⟨[(0, 0)], ["down"], 0, []⟩
  rw [hl]
  rfl

theorem cityState_facing_head (n : Nat) : (cityState n).facing.head? = some "down" := by
  unfold cityState
  obtain ⟨l, hl⟩ := processAbstract_facing_append n (n - 1)
    (buildAbstract ((n + (HOUSES_PER_BLOCK - 1)) / HOUSES_PER_BLOCK)
      ((n + (HOUSES_PER_BLOCK - 1)) / HOUSES_PER_BLOCK + 4) 0 [])
    ⟨[(0, 0)], ["down"], 0, []⟩
  rw [hl]
  rfl

theorem cityState_roads_mem (n : Nat) (t : Int × Int)
    (ht : t ∈ (cityState n).roads) : RoadP t := by
  unfold cityState at ht
  rcases processAbstract_roads_mem _ _ _ _ _ ht with h | h
  · simp at h
  · exact h

theorem cityState_slots_ne_nil (n : Nat) : (cityState n).slots ≠ [] := by
  intro he
  have := cityState_slots_head n
  rw [he] at this
  simp at this

theorem generate_city_slots_eq (limit : Int) (h : 2 ≤ limit) :
    generate_city_slots limit =
      ((cityState limit.toNat).slots, (cityState limit.toNat).facing,
        some ((cityState limit.toNat).roads.filter (fun t => decide (t ∉ crossTiles))
          ++ ringTiles)) := by
  have h1 : ¬ limit ≤ 1 := by omega
  simp only [generate_city_slots, if_neg h1]
  rw [if_neg]
  simp only [List.isEmpty_iff]
  exact cityState_slots_ne_nil limit.toNat

theorem generate_city_slots_len (limit : Int) (h : 2 ≤ limit) :
    (generate_city_slots limit).1.length = limit.toNat := by
  rw [generate_city_slots_eq limit h]
  exact cityState_slots_len limit.toNat (by omega)

theorem generate_city_slots_head (limit : Int) :
    (generate_city_slots limit).1.head? = some (0, 0) := by
  by_cases h1 : limit ≤ 1
  · simp [generate_city_slots, if_pos h1]
  · rw [generate_city_slots_eq limit (by omega)]
    exact cityState_slots_head limit.toNat

theorem generate_city_slots_facing_head (limit : Int) :
    (generate_city_slots limit).2.1.head? = some "down" := by
  by_cases h1 : limit ≤ 1
  · simp [generate_city_slots, if_pos h1]
  · rw [generate_city_slots_eq limit (by omega)]
    exact cityState_facing_head limit.toNat

/-- Every ring tile has a coordinate of absolute value exactly 2. -/
theorem ringTiles_not_interior :
    ∀ t ∈ ringTiles, ¬ (t.1.natAbs ≤ 1 ∧ t.2.natAbs ≤ 1) := by decide

theorem generate_city_slots_ring_subset (limit : Int) (h : 2 ≤ limit)
    (r : List (Int × Int)) (hr : (generate_city_slots limit).2.2 = some r) :
    ∀ t ∈ ringTiles, t ∈ r := by
  rw [generate_city_slots_eq limit h] at hr
  simp only [Option.some_inj] at hr
  intro t ht
  rw [← hr]
  exact List.mem_append_right _ ht

/-- After post-processing, no road tile lies strictly inside the ring:
the rasterized block grid lines keep one coordinate in `{0} ∪ (|·| ≥ 10)`,
and the central cross removal deletes every such tile near the origin. -/
theorem generate_city_slots_interior (limit : Int) (h : 2 ≤ limit)
    (r : List (Int × Int)) (hr : (generate_city_slots limit).2.2 = some r) :
    ∀ t ∈ r, ¬ (t.1.natAbs ≤ 1 ∧ t.2.natAbs ≤ 1) := by
  rw [generate_city_slots_eq limit h] at hr
  simp only [Option.some_inj] at hr
  intro t ht ⟨hx, hy⟩
  rw [← hr] at ht
  rcases List.mem_append.mp ht with hmem | hmem
  · have hfilter := List.mem_filter.mp hmem
    have hroadp := cityState_roads_mem limit.toNat t hfilter.1
    have hnotcross : t ∉ crossTiles := by
      have := hfilter.2
      simpa using this
    apply hnotcross
    obtain ⟨a, b⟩ := t
    simp only [RoadP] at hroadp
    simp only at hx hy
    have hab : a = 0 ∨ b = 0 := by omega
    have ha1 : -1 ≤ a := by omega
    have ha2 : a ≤ 1 := by omega
    have hb1 : -1 ≤ b := by omega
    have hb2 : b ≤ 1 := by omega
    rcases hab with ha0 | hb0
    · subst ha0
      interval_cases b <;> decide
    · subst hb0
      interval_cases a <;> decide
  · exact ringTiles_not_interior t hmem ⟨hx, hy⟩

/-! ### Sync engine (`generate_houses`, `recalculate_layout`, `main`) -/

/-- A roster entry as consumed by `generate_houses`: the wrapped user login
(`strgzr['user']['login']`) and the optional `starred_at` sort key
(absent on follower entries, defaulted to `"0"` by `x.get('starred_at','0')`). -/
structure Entry where
  login : String
  starred_at : Option String
deriving Repr, DecidableEq

/-- The sort key `x.get('starred_at', '0')`. -/
def sortKey (e : Entry) : String := e.starred_at.getD "0"

/-- `stargazers.sort(key=...)`: a stable sort by the `starred_at` key. -/
def sortStargazers (sg : List Entry) : List Entry :=
  sg.mergeSort (fun a b => decide (sortKey a ≤ sortKey b))

/-- The owner's mock entry prepended to the roster. -/
def owner_entry (owner_name : String) : Entry :=
  { login := owner_name, starred_at := some "1970-01-01T00:00:00Z" }

/-- `full_list = [owner_entry] + sorted stargazers`. -/
def full_list (stargazers : List Entry) (owner_name : String) : List Entry :=
  owner_entry owner_name :: sortStargazers stargazers

/-- The capacity requested from the allocator:
`estimated_total = int(len(full_list) * 1.3)`, raised to `len + 5` when
smaller.  `int(n * 1.3)` truncates; the Python double computation
`int(n * 1.3)` equals `n * 13 / 10` in exact arithmetic for every feasible
`n` (the double `1.3` exceeds `13/10` by `0.2 / 2^52`, an excess far below
the distance to the next integer boundary for any `n` below `2^45`). -/
def estimated_total (n : Nat) : Nat :=
  if n * 13 / 10 < n + 5 then n + 5 else n * 13 / 10

/-- The capacity as the SPEC words it (a definition following the spec, for
comparison with `estimated_total` from the source): the CEILING of
`1.3 × count`, floored at `count + 5`. -/
def spec_capacity (n : Nat) : Nat :=
  max ((n * 13 + 9) / 10) (n + 5)

/-- Stable per-identity attributes of a household record: everything except
the position binding (`x`, `y`, `facing`). -/
structure HouseAttrs where
  color : String
  roofStyle : Nat
  doorStyle : Nat
  windowStyle : Nat
  chimneyStyle : Nat
  wallStyle : Nat
  username : String
  has_terrace : Bool
deriving Repr, DecidableEq

/-- A record of the written registry.  A tree obstacle
(`{"x":…, "y":…, "obstacle":"tree"}`) carries no attributes and no facing;
a household record carries both. -/
structure House where
  x : Int
  y : Int
  facing : Option String
  attrs : Option HouseAttrs
deriving Repr, DecidableEq

/-- `house.get('obstacle')` is set exactly on the attribute-less records. -/
def House.obstacle (h : House) : Bool := h.attrs.isNone

/-- The identity-derived part of a new household record. -/
def entry_attrs (contributors : List String) (e : Entry) : HouseAttrs :=
  let a := string_to_pseudo_random e.login
  { color := string_to_color e.login
    roofStyle := a.getD 0 0
    doorStyle := a.getD 1 0
    windowStyle := a.getD 2 0
    chimneyStyle := a.getD 3 0
    wallStyle := a.getD 4 0
    username := e.login
    has_terrace := decide (e.login ∈ contributors) }

/-- The slot walk of `generate_houses`: one loop iteration per slot, stopping
when every pending entry is placed.  A tree is placed instead of the next
pending household only when `i > 0`, there are strictly more slots left than
pending households, and the random draw fires; the draws
(`random.random() < 0.2`, at most one per iteration) are indexed by the slot
index `i`. -/
def walk (facings : List String) (contributors : List String) (rng : Nat → Bool) :
    List (Int × Int) → Nat → List Entry → List House
  | [], _, _ => []
  | _ :: _, _, [] => []
  | (sx, sy) :: rest, i, e :: pend =>
    if 0 < i ∧ pend.length + 1 < rest.length + 1 ∧ rng i = true then
      { x := sx, y := sy, facing := none, attrs := none } ::
        walk facings contributors rng rest (i + 1) (e :: pend)
    else
      { x := sx, y := sy, facing := some (facings.getD i ""),
        attrs := some (entry_attrs contributors e) } ::
        walk facings contributors rng rest (i + 1) pend

/-- `generate_houses(stargazers, contributors, owner_name)`.  The allocator
is always called with capacity ≥ 6, so the road component is always present;
`none` models the `ValueError` the source would raise unpacking the
allocator's 2-tuple. -/
def generate_houses (stargazers : List Entry) (contributors : List String)
    (owner_name : String) (rng : Nat → Bool) :
    Option (List House × List (Int × Int)) :=
  match generate_city_slots
      (estimated_total (full_list stargazers owner_name).length : Nat) with
  | (slots, facings, some roads) =>
    some (walk facings contributors rng slots 0 (full_list stargazers owner_name), roads)
  | (_, _, none) => none

/-- One sync run as performed by `main`: fetch a roster, call
`generate_houses`, and write `stargazers_houses.json` and `roads.json`
wholesale.  The previously persisted registry (`oldRegistry`) is never read
on this path (lines 576–593 of the source), so it does not occur in the
result. -/
def sync_run (oldRegistry : List House) (stargazers : List Entry)
    (contributors : List String) (owner_name : String) (rng : Nat → Bool) :
    Option (List House × List (Int × Int)) :=
  generate_houses stargazers contributors owner_name rng

/-- The position-update loop of `recalculate_layout`:
`for i, house in enumerate(houses): if i < len(slots): …`. -/
def apply_slots (slots : List (Int × Int)) (facings : List String) :
    Nat → List House → List House
  | _, [] => []
  | i, h :: hs =>
    (if i < slots.length then
      { h with
        x := (slots.getD i (0, 0)).1
        y := (slots.getD i (0, 0)).2
        facing := some (facings.getD i "") }
     else h) :: apply_slots slots facings (i + 1) hs

/-- `recalculate_layout(houses)`: regenerate slots for `len(houses)` and
rebind positions/facings in place; `none` models the unpacking `ValueError`
on the allocator's 2-tuple return (`len(houses) <= 1`). -/
def recalculate_layout (houses : List House) :
    Option (List House × List (Int × Int)) :=
  match generate_city_slots (houses.length : Nat) with
  | (slots, facings, some roads) => some (apply_slots slots facings 0 houses, roads)
  | (_, _, none) => none

/-! ### Walk lemmas -/

/-- Every pending entry is placed, in order, with its identity-derived
attributes, whenever at least as many slots as pending entries remain.
The tree guard (`remaining_slots > remaining_houses`) preserves exactly
this invariant. -/
theorem walk_attrs (facings : List String) (contributors : List String)
    (rng : Nat → Bool) :
    ∀ (slots : List (Int × Int)) (i : Nat) (pending : List Entry),
      pending.length ≤ slots.length →
      (walk facings contributors rng slots i pending).filterMap House.attrs
        = pending.map (entry_attrs contributors) := by
  intro slots
  induction slots with
  | nil =>
    intro i pending hlen
    cases pending with
    | nil => simp [walk]
    | cons e p => simp at hlen
  | cons s rest ih =>
    intro i pending hlen
    obtain ⟨sx, sy⟩ := s
    cases pending with
    | nil => simp [walk]
    | cons e pend =>
      by_cases hc : 0 < i ∧ pend.length + 1 < rest.length + 1 ∧ rng i = true
      · simp only [walk, if_pos hc]
        rw [List.filterMap_cons]
        simp only [House.attrs]
        exact ih (i + 1) (e :: pend) (by simpa using Nat.le_of_lt_succ hc.2.1)
      · simp only [walk, if_neg hc]
        rw [List.filterMap_cons]
        simp only [House.attrs, List.map_cons]
        rw [ih (i + 1) pend (by simpa using hlen)]

/-- A tree obstacle appears in the walk output only at a strictly positive
slot index, and only when strictly more slots than pending households
remain at that point (stated additively:
`pending + j < slots + houses-placed-before-j`). -/
theorem walk_obstacle (facings : List String) (contributors : List String)
    (rng : Nat → Bool) :
    ∀ (slots : List (Int × Int)) (i : Nat) (pending : List Entry)
      (j : Nat) (h : House),
      (walk facings contributors rng slots i pending).get? j = some h →
      h.attrs = none →
      0 < i + j ∧
        pending.length + j < slots.length +
          ((walk facings contributors rng slots i pending).take j).countP
            (fun x => x.attrs.isSome) := by
  intro slots
  induction slots with
  | nil => intro i pending j h hj _; simp [walk] at hj
  | cons s rest ih =>
    intro i pending j h hj hattrs
    obtain ⟨sx, sy⟩ := s
    cases pending with
    | nil => simp [walk] at hj
    | cons e pend =>
      by_cases hc : 0 < i ∧ pend.length + 1 < rest.length + 1 ∧ rng i = true
      · simp only [walk, if_pos hc] at hj ⊢
        cases j with
        | zero =>
          refine ⟨by omega, ?_⟩
          simp only [List.take_zero, List.countP_nil, List.length_cons]
          omega
        | succ j =>
          rw [List.get?_cons_succ] at hj
          obtain ⟨h1, h2⟩ := ih (i + 1) (e :: pend) j h hj hattrs
          refine ⟨by omega, ?_⟩
          rw [List.take_succ_cons, List.countP_cons]
          simp only [House.attrs, Option.isSome_none, Bool.false_eq_true, if_false,
            List.length_cons] at h2 ⊢
          omega
      · simp only [walk, if_neg hc] at hj ⊢
        cases j with
        | zero =>
          rw [List.get?_cons_zero, Option.some_inj] at hj
          rw [← hj] at hattrs
          simp at hattrs
        | succ j =>
          rw [List.get?_cons_succ] at hj
          obtain ⟨h1, h2⟩ := ih (i + 1) pend j h hj hattrs
          refine ⟨by omega, ?_⟩
          rw [List.take_succ_cons, List.countP_cons]
          simp only [House.attrs, Option.isSome_some, if_pos, List.length_cons] at h2 ⊢
          omega

theorem estimated_total_ge (n : Nat) : n + 5 ≤ estimated_total n := by
  unfold estimated_total
  split <;> omega

theorem full_list_length_pos (sg : List Entry) (owner : String) :
    1 ≤ (full_list sg owner).length := by
  simp [full_list]

/-- `generate_houses` always succeeds (the capacity is at least 6, so the
allocator never takes its 2-tuple early return), and its outputs are the
slot walk and the post-processed road set. -/
theorem generate_houses_eq (sg : List Entry) (contribs : List String)
    (owner : String) (rng : Nat → Bool) :
    generate_houses sg contribs owner rng
      = some (walk (cityState (estimated_total (full_list sg owner).length)).facing
                contribs rng
                (cityState (estimated_total (full_list sg owner).length)).slots
                0 (full_list sg owner),
              (cityState (estimated_total (full_list sg owner).length)).roads.filter
                  (fun t => decide (t ∉ crossTiles)) ++ ringTiles) := by
  have h6 := estimated_total_ge (full_list sg owner).length
  have h1 := full_list_length_pos sg owner
  have h2 : (2 : Int) ≤ (estimated_total (full_list sg owner).length : Int) := by
    exact_mod_cast by omega
  unfold generate_houses
  rw [generate_city_slots_eq _ h2]
  simp

theorem cityState_est_slots_len (sg : List Entry) (owner : String) :
    (cityState (estimated_total (full_list sg owner).length)).slots.length
      = estimated_total (full_list sg owner).length := by
  have h6 := estimated_total_ge (full_list sg owner).length
  have h1 := full_list_length_pos sg owner
  exact cityState_slots_len _ (by omega)

/-- The non-obstacle records output by `generate_houses` are exactly the
full pending list, in order, with identity-derived attributes. -/
theorem generate_houses_attrs (sg : List Entry) (contribs : List String)
    (owner : String) (rng : Nat → Bool) :
    ∃ hs rs, generate_houses sg contribs owner rng = some (hs, rs) ∧
      hs.filterMap House.attrs = (full_list sg owner).map (entry_attrs contribs) := by
  refine ⟨_, _, generate_houses_eq sg contribs owner rng, ?_⟩
  apply walk_attrs
  rw [cityState_est_slots_len sg owner]
  have := estimated_total_ge (full_list sg owner).length
  omega

theorem apply_slots_length (slots : List (Int × Int)) (facings : List String) :
    ∀ (i : Nat) (hs : List House),
      (apply_slots slots facings i hs).length = hs.length := by
  intro i hs
  induction hs generalizing i with
  | nil => simp [apply_slots]
  | cons h t ih => simp [apply_slots, ih]

theorem apply_slots_attrs (slots : List (Int × Int)) (facings : List String) :
    ∀ (i : Nat) (hs : List House) (j : Nat),
      ((apply_slots slots facings i hs).get? j).map House.attrs
        = (hs.get? j).map House.attrs := by
  intro i hs
  induction hs generalizing i with
  | nil => intro j; simp [apply_slots]
  | cons h t ih =>
    intro j
    cases j with
    | zero =>
      simp only [apply_slots, List.get?_cons_zero, Option.map_some]
      split <;> rfl
    | succ j =>
      simp only [apply_slots, List.get?_cons_succ]
      exact ih (i + 1) j

theorem apply_slots_beyond (slots : List (Int × Int)) (facings : List String) :
    ∀ (i : Nat) (hs : List House) (j : Nat), slots.length ≤ i + j →
      (apply_slots slots facings i hs).get? j = hs.get? j := by
  intro i hs
  induction hs generalizing i with
  | nil => intro j _; simp [apply_slots]
  | cons h t ih =>
    intro j hj
    cases j with
    | zero =>
      simp only [apply_slots, List.get?_cons_zero]
      rw [if_neg (by omega)]
    | succ j =>
      simp only [apply_slots, List.get?_cons_succ]
      exact ih (i + 1) j (by omega)

theorem recalculate_layout_eq (houses : List House) (h2 : 2 ≤ houses.length) :
    recalculate_layout houses
      = some (apply_slots (cityState houses.length).slots
                (cityState houses.length).facing 0 houses,
              (cityState houses.length).roads.filter
                  (fun t => decide (t ∉ crossTiles)) ++ ringTiles) := by
  have h2' : (2 : Int) ≤ (houses.length : Int) := by exact_mod_cast h2
  unfold recalculate_layout
  rw [generate_city_slots_eq _ h2']
  simp

theorem entry_attrs_username (contribs : List String) (e : Entry) :
    (entry_attrs contribs e).username = e.login := rfl

/-! ### Claim theorems -/

/-- C1: the claim says that for every capacity N ≥ 2 and every non-anchor
slot index i, the i-th facing is "left" iff the i-th slot's x-coordinate is
strictly positive.  The source appends TWO facing entries per non-anchor
slot (a duplicated `if house_x > 0` block), so at capacity 18 the facing
list has 35 entries, not 18, and entry 17 is a duplicate reading "left"
although slot 17 is (-3, -3), whose non-positive x requires "right". -/
theorem C1_facing_misalignment :
    (generate_city_slots 18).1.length = 18 ∧
    (generate_city_slots 18).2.1.length = 35 ∧
    (generate_city_slots 18).1.get? 17 = some (-3, -3) ∧
    (generate_city_slots 18).2.1.get? 17 = some "left" ∧
    ¬ (0 < (-3 : Int)) :=
  ⟨rfl, rfl, rfl, rfl, by decide⟩

/-- C2 counterexample: a registry holding a record for identity "X" is run
against a live roster not containing "X" (here: the empty roster, owner
"owner").  The registry written at the end of the run contains only the
owner's record — the record for "X" is gone, not retained with an
`abandoned` flag (no such flag exists in the written records). -/
theorem C2_counterexample :
    ((([{ x := 0, y := 0, facing := some "down",
          attrs := some { color := "#abcdef", roofStyle := 0, doorStyle := 0,
                          windowStyle := 0, chimneyStyle := 0, wallStyle := 0,
                          username := "X", has_terrace := false } }] :
        List House).filterMap House.attrs).map HouseAttrs.username = ["X"]) ∧
    (sync_run
        [{ x := 0, y := 0, facing := some "down",
           attrs := some { color := "#abcdef", roofStyle := 0, doorStyle := 0,
                           windowStyle := 0, chimneyStyle := 0, wallStyle := 0,
                           username := "X", has_terrace := false } }]
        [] [] "owner" (fun _ => false)).map
      (fun pr => (pr.1.filterMap House.attrs).map HouseAttrs.username)
      = some ["owner"] := by
  refine ⟨rfl, ?_⟩
  show (Option.map _ (generate_houses [] [] "owner" (fun _ => false))) = _
  rw [generate_houses_eq]
  simp only [full_list, sortStargazers, List.mergeSort_nil]
  rfl

/-- C2 (amended): a sync run never reads the persisted registry; the
registry written at the end is rebuilt from the live roster alone — its
household records are exactly the owner followed by the sorted roster
identities, whatever the previous registry contained.  A record present
before the run but absent from the roster is therefore dropped, not
retained. -/
theorem C2_registry_rebuilt_from_roster (oldRegistry : List House)
    (sg : List Entry) (contribs : List String) (owner : String)
    (rng : Nat → Bool) :
    ∃ hs rs, sync_run oldRegistry sg contribs owner rng = some (hs, rs) ∧
      (hs.filterMap House.attrs).map HouseAttrs.username
        = (full_list sg owner).map Entry.login := by
  obtain ⟨hs, rs, he, ha⟩ := generate_houses_attrs sg contribs owner rng
  refine ⟨hs, rs, he, ?_⟩
  rw [ha, List.map_map]
  rfl

/-- C3 counterexample: at requested capacity 0 the allocator does not fail
with any InvalidCapacity condition — it returns the anchor slot. -/
theorem C3_counterexample :
    generate_city_slots 0 = ([(0, 0)], ["down"], none) := rfl

/-- C3 (amended): for every requested capacity N ≤ 0 the allocator does not
abort; it takes the same early return as N = 1, yielding the single anchor
slot (0,0) facing "down" and no road component at all. -/
theorem C3_nonpositive_returns_anchor (limit : Int) (h : limit ≤ 0) :
    generate_city_slots limit = ([(0, 0)], ["down"], none) := by
  simp [generate_city_slots, if_pos (by omega : limit ≤ 1)]

theorem C3_witness :
    (-5 : Int) ≤ 0 ∧ generate_city_slots (-5) = ([(0, 0)], ["down"], none) :=
  ⟨by norm_num, C3_nonpositive_returns_anchor (-5) (by norm_num)⟩

/-- C4: the claim says capacity N = 1 returns the anchor together with its
ring road from the step-8 post-processing.  In the source, `limit <= 1`
early-returns the 2-tuple `(slots, facing_dir)` BEFORE any road generation:
no road tile set is produced at all (and every caller, which unpacks three
values, would crash).  The theorem evaluates the allocator at the failing
input N = 1: the road component is absent (`none`), so no ring road is
returned. -/
theorem C4_no_roads_at_capacity_one :
    generate_city_slots 1 = ([(0, 0)], ["down"], none) := rfl

/-- C5 counterexample: a roster of 16 stargazers gives 17 non-obstacle
records.  The source computes `int(17 * 1.3) = 22` (truncation), which is
taken as the capacity since it is not below 17 + 5 = 22; the claim's
formula `max(ceil(1.3 * 17), 17 + 5) = max(23, 22) = 23` disagrees. -/
theorem C5_counterexample :
    (full_list (List.replicate 16 ({ login := "u", starred_at := none } : Entry))
      "o").length = 17 ∧
    estimated_total 17 = 22 ∧ spec_capacity 17 = 23 ∧
    estimated_total 17 ≠ spec_capacity 17 := by
  refine ⟨?_, by decide, by decide, by decide⟩
  simp [full_list, sortStargazers]

/-- C5 (amended): the capacity passed to the allocator is
`max(floor(1.3 × count), count + 5)` — the fractional part is truncated by
`int(...)`, not rounded up — where count is the number of non-obstacle
records, i.e. the roster length plus one for the owner. -/
theorem C5_capacity_truncates (sg : List Entry) (owner : String) :
    estimated_total (full_list sg owner).length
      = max ((full_list sg owner).length * 13 / 10)
          ((full_list sg owner).length + 5) ∧
    (full_list sg owner).length = sg.length + 1 := by
  constructor
  · unfold estimated_total
    split <;> omega
  · simp [full_list, sortStargazers]

/-- C6 counterexample: at capacity N = 1 (allowed by the claim's "N ≥ 1")
the allocator returns no road tile set at all — the early return skips the
ring-road post-processing — so the returned road set cannot contain the
ring. -/
theorem C6_counterexample : (generate_city_slots 1).2.2 = none := rfl

/-- C6 (amended to N ≥ 2): the road tile set returned by the allocator
contains the complete closed square ring of radius 2 around the origin,
and contains no tile strictly inside that ring (both coordinates of
absolute value ≤ 1); block-grid tiles near the origin are removed by the
central-cross deletion before the ring is added. -/
theorem C6_ring_road (limit : Int) (h : 2 ≤ limit) :
    ∃ r, (generate_city_slots limit).2.2 = some r ∧
      (∀ x : Int, -2 ≤ x → x ≤ 2 →
        (x, (-2 : Int)) ∈ r ∧ (x, (2 : Int)) ∈ r ∧
        ((-2 : Int), x) ∈ r ∧ ((2 : Int), x) ∈ r) ∧
      ∀ t ∈ r, ¬ (t.1.natAbs ≤ 1 ∧ t.2.natAbs ≤ 1) := by
  obtain ⟨r, hr⟩ : ∃ r, (generate_city_slots limit).2.2 = some r :=
    ⟨_, by rw [generate_city_slots_eq limit h]⟩
  have hsub := generate_city_slots_ring_subset limit h r hr
  refine ⟨r, hr, ?_, generate_city_slots_interior limit h r hr⟩
  intro x hx1 hx2
  refine ⟨hsub _ ?_, hsub _ ?_, hsub _ ?_, hsub _ ?_⟩ <;>
    (interval_cases x <;> decide)

theorem C6_witness :
    (2 : Int) ≤ 2 ∧
    ∃ r, (generate_city_slots 2).2.2 = some r ∧
      (∀ x : Int, -2 ≤ x → x ≤ 2 →
        (x, (-2 : Int)) ∈ r ∧ (x, (2 : Int)) ∈ r ∧
        ((-2 : Int), x) ∈ r ∧ ((2 : Int), x) ∈ r) ∧
      ∀ t ∈ r, ¬ (t.1.natAbs ≤ 1 ∧ t.2.natAbs ≤ 1) :=
  ⟨by norm_num, C6_ring_road 2 (by norm_num)⟩

/-- C7: for every capacity N ≥ 1 the allocator returns a slot sequence of
length at least N, whose slot 0 is the origin (0,0) and whose facing entry
0 is the fixed anchor facing "down", independently of N. -/
theorem C7_anchor_slot (limit : Int) (h : 1 ≤ limit) :
    limit.toNat ≤ (generate_city_slots limit).1.length ∧
    (generate_city_slots limit).1.head? = some (0, 0) ∧
    (generate_city_slots limit).2.1.head? = some "down" := by
  refine ⟨?_, generate_city_slots_head limit, generate_city_slots_facing_head limit⟩
  by_cases h1 : limit ≤ 1
  · have : limit = 1 := le_antisymm h1 h
    subst this
    simp [generate_city_slots]
  · rw [generate_city_slots_len limit (by omega)]

theorem C7_witness :
    (1 : Int) ≤ 7 ∧
    ((7 : Int).toNat ≤ (generate_city_slots 7).1.length ∧
     (generate_city_slots 7).1.head? = some (0, 0) ∧
     (generate_city_slots 7).2.1.head? = some "down") :=
  ⟨by norm_num, C7_anchor_slot 7 (by norm_num)⟩

/-- C8: during the slot walk an obstacle is placed only at a slot index
strictly greater than 0, and only when the slots remaining strictly exceed
the pending households remaining (stated additively with the number of
households already placed before position j); consequently every household
of the pending list is bound to a slot, in order, before the walk ends. -/
theorem C8_obstacle_guard_total_placement (sg : List Entry)
    (contribs : List String) (owner : String) (rng : Nat → Bool) :
    ∃ hs rs, generate_houses sg contribs owner rng = some (hs, rs) ∧
      (hs.filterMap House.attrs).map HouseAttrs.username
        = (full_list sg owner).map Entry.login ∧
      ∀ j h, hs.get? j = some h → h.obstacle = true →
        0 < j ∧
        (full_list sg owner).length + j
          < estimated_total (full_list sg owner).length
            + (hs.take j).countP (fun x => x.attrs.isSome) := by
  have hle : (full_list sg owner).length
      ≤ (cityState (estimated_total (full_list sg owner).length)).slots.length := by
    rw [cityState_est_slots_len sg owner]
    have := estimated_total_ge (full_list sg owner).length
    omega
  refine ⟨_, _, generate_houses_eq sg contribs owner rng, ?_, ?_⟩
  · rw [walk_attrs _ contribs rng _ 0 _ hle, List.map_map]
    rfl
  · intro j h hj hobs
    have hattrs : h.attrs = none := by
      simpa [House.obstacle, Option.isNone_iff_eq_none] using hobs
    obtain ⟨h1, h2⟩ := walk_obstacle _ contribs rng _ 0 _ j h hj hattrs
    rw [cityState_est_slots_len sg owner] at h2
    exact ⟨by omega, h2⟩

/-- C9: two runs over the same roster, contributor set and owner — with any
two random draw sequences — produce the same household records once the
position binding (x, y, facing) is excluded, and the same road set; only
the placement of tree obstacles can differ. -/
theorem C9_rerun_household_records_stable (sg : List Entry)
    (contribs : List String) (owner : String) (rng₁ rng₂ : Nat → Bool) :
    ∃ hs₁ rs₁ hs₂ rs₂,
      generate_houses sg contribs owner rng₁ = some (hs₁, rs₁) ∧
      generate_houses sg contribs owner rng₂ = some (hs₂, rs₂) ∧
      hs₁.filterMap House.attrs = hs₂.filterMap House.attrs ∧
      rs₁ = rs₂ := by
  have hle : (full_list sg owner).length
      ≤ (cityState (estimated_total (full_list sg owner).length)).slots.length := by
    rw [cityState_est_slots_len sg owner]
    have := estimated_total_ge (full_list sg owner).length
    omega
  refine ⟨_, _, _, _, generate_houses_eq sg contribs owner rng₁,
    generate_houses_eq sg contribs owner rng₂, ?_, rfl⟩
  rw [walk_attrs _ contribs rng₁ _ 0 _ hle, walk_attrs _ contribs rng₂ _ 0 _ hle]

/-- C10: relayout is frame-preserving — for every house list it can process
(length ≥ 2; on shorter lists the source crashes unpacking the allocator's
2-tuple), `recalculate_layout` keeps the list's length and order, changes
at most the x, y and facing fields, leaves the attribute part (username,
color, the five style indices, has_terrace, obstacle-ness) of every record
unchanged, and leaves records at indices at or beyond the produced slot
count entirely unchanged. -/
theorem C10_relayout_frame (houses : List House) (h2 : 2 ≤ houses.length) :
    ∃ out roads, recalculate_layout houses = some (out, roads) ∧
      out.length = houses.length ∧
      (∀ j, (out.get? j).map House.attrs = (houses.get? j).map House.attrs) ∧
      ∀ j, (generate_city_slots (houses.length : Int)).1.length ≤ j →
        out.get? j = houses.get? j := by
  refine ⟨_, _, recalculate_layout_eq houses h2, apply_slots_length _ _ 0 houses,
    fun j => apply_slots_attrs _ _ 0 houses j, ?_⟩
  intro j hj
  apply apply_slots_beyond _ _ 0 houses j
  rw [generate_city_slots_len _ (by exact_mod_cast h2)] at hj
  rw [cityState_slots_len _ (by omega)]
  omega

theorem C10_witness :
    2 ≤ ([{ x := 0, y := 0, facing := none, attrs := none },
          { x := 9, y := 9, facing := none, attrs := none }] : List House).length ∧
    ∃ out roads,
      recalculate_layout
        [{ x := 0, y := 0, facing := none, attrs := none },
         { x := 9, y := 9, facing := none, attrs := none }] = some (out, roads) ∧
      out.length = ([{ x := 0, y := 0, facing := none, attrs := none },
          { x := 9, y := 9, facing := none, attrs := none }] : List House).length ∧
      (∀ j, (out.get? j).map House.attrs
        = (([{ x := 0, y := 0, facing := none, attrs := none },
             { x := 9, y := 9, facing := none, attrs := none }] :
            List House).get? j).map House.attrs) ∧
      ∀ j, (generate_city_slots
          (([{ x := 0, y := 0, facing := none, attrs := none },
             { x := 9, y := 9, facing := none, attrs := none }] :
            List House).length : Int)).1.length ≤ j →
        out.get? j = ([{ x := 0, y := 0, facing := none, attrs := none },
                       { x := 9, y := 9, facing := none, attrs := none }] :
                      List House).get? j :=
  ⟨by decide, C10_relayout_frame _ (by decide)⟩

end GitVille
